import Mathlib

/-!
Verification development for the edx-enterprise learner-data transmission
pipeline and LMS/catalog API client wrappers.

The definitions below are shallow embeddings of the Python sources:

* `integrated_channels/integrated_channel/transmitters/learner_data.py`
  (`LearnerTransmitter.transmit`, `assessment_level_transmit`,
  `single_learner_assessment_grade_transmit`);
* `enterprise/api_client/lms.py` (`JwtLmsApiClient`, `EnrollmentApiClient`,
  `CourseApiClient`);
* `enterprise/api_client/enterprise_catalog.py`
  (`EnterpriseCatalogApiClient.refresh_catalogs`).

External collaborators (the HTTP client, the exporter, the serializer) are
modelled as function parameters; the Django ORM audit table is modelled as a
list of rows threaded through the loops.
-/

/-- A learner-data record produced by the exporter.  In the source this object
is a `TransmissionAudit` model instance: the fields the transmitter reads
(`enterprise_course_enrollment_id`, `course_completed`, `grade`,
`subsection_id`, `course_id`, the remote-user id attribute named by
the `remote_user_id` kwarg) together with the fields it writes before calling
`save()` (`status`, `error_message`). -/
structure LearnerData where
  enterprise_course_enrollment_id : Nat
  course_completed : Bool
  grade : Option Int
  subsection_id : Option Nat
  course_id : String
  remote_user_id : Nat
  status : String
  error_message : String
deriving DecidableEq, Repr

/-- Outcome of one HTTP call made by the integrated-channel API client
(`create_course_completion` / `create_assessment_reporting`): a normal
`(code, body)` return, a raised `ClientError` carrying `status_code` and
`message`, or any other raised exception. -/
inductive ClientOutcome where
  | ok (code : Nat) (body : String)
  | clientError (status_code : Nat) (message : String)
  | otherException
deriving DecidableEq, Repr

/-- The integrated-channel API client: called with the remote user id of the record
and the serialized payload. -/
abbrev Client := Nat → String → ClientOutcome

/-- `learner_data.serialize(enterprise_configuration=...)`, abstracted. -/
abbrev Serializer := LearnerData → String

/-- Observable actions of a transmitter loop, in the order they happen. -/
inductive Event where
  | serialized (record : LearnerData) (payload : String)
  | skippedIncomplete (enrollment_id : Nat)
  | skippedTransmitted (enrollment_id : Nat)
  | completionCall (remote_user_id : Nat) (payload : String)
  | assessmentCall (remote_user_id : Nat) (payload : String)
  | saved (record : LearnerData)
deriving DecidableEq, Repr

/-- The last element of a list satisfying `p` (the most recently inserted
matching database row). -/
def lastMatch (p : LearnerData → Bool) : List LearnerData → Option LearnerData
  | [] => none
  | r :: rs =>
    match lastMatch p rs with
    | some x => some x
    | none => if p r then some r else none

/-- Does an audit row answer a query for the given enrollment (and, when one
is supplied, subsection)? -/
def matchesQuery (eid : Nat) (subsection : Option Nat) (r : LearnerData) : Bool :=
  r.enterprise_course_enrollment_id == eid &&
    match subsection with
    | none => true
    | some s => r.subsection_id == some s

/-- Modelled from the spec: `is_already_transmitted` lives in
`integrated_channels/utils.py`, which is not among the sources; only its
call sites in `learner_data.py` are.  Per the spec, a transmission audit is
"a database row recording the last status/payload sent for a given
enrollment, used to avoid re-sending unchanged data", i.e. "per-channel
TransmissionAudit rows (storing last-sent grade/status/error per enrollment,
used only as an idempotence marker)".  Accordingly this reports a record as
already transmitted exactly when the last audit row recorded for the
enrollment (restricted to the subsection when one is given) carries the same
grade as the record about to be sent. -/
def is_already_transmitted (audit : List LearnerData) (eid : Nat)
    (grade : Option Int) (subsection : Option Nat) : Bool :=
  match lastMatch (matchesQuery eid subsection) audit with
  | none => false
  | some r => r.grade == grade

/-- One iteration of the loop in `LearnerTransmitter.transmit`
(learner_data.py lines 194-248) on a single exported record, given the
current audit table.  Returns the events of the iteration, the updated audit
table, and whether an exception escaped the iteration (aborting the loop). -/
def transmitStep (client : Client) (serialize : Serializer)
    (audit : List LearnerData) (ld : LearnerData) :
    List Event × List LearnerData × Bool :=
  let payload := serialize ld
  let ser := Event.serialized ld payload
  if ld.course_completed = false then
    ([ser, Event.skippedIncomplete ld.enterprise_course_enrollment_id], audit, false)
  else if is_already_transmitted audit ld.enterprise_course_enrollment_id ld.grade none then
    ([ser, Event.skippedTransmitted ld.enterprise_course_enrollment_id], audit, false)
  else
    match client ld.remote_user_id payload with
    | ClientOutcome.ok code body =>
      if 400 ≤ code then
        -- the raise of ClientError with the formatted failure message and the code
        -- is caught by the `except ClientError` arm just below it, so the record is
        -- saved with the ClientError message as its error message.
        let rec0 := { ld with
          status := toString code,
          error_message := "Client create_course_completion failed: " ++ body }
        ([ser, Event.completionCall ld.remote_user_id payload, Event.saved rec0],
          audit ++ [rec0], false)
      else
        let rec0 := { ld with status := toString code, error_message := "" }
        ([ser, Event.completionCall ld.remote_user_id payload, Event.saved rec0],
          audit ++ [rec0], false)
    | ClientOutcome.clientError code msg =>
      let rec0 := { ld with
        status := toString code,
        error_message := if 400 ≤ code then msg else "" }
      ([ser, Event.completionCall ld.remote_user_id payload, Event.saved rec0],
        audit ++ [rec0], false)
    | ClientOutcome.otherException =>
      -- the `except Exception` arm logs and re-raises: nothing is saved and the
      -- loop terminates by the exception propagating out of `transmit`.
      ([ser, Event.completionCall ld.remote_user_id payload], audit, true)

/-- `LearnerTransmitter.transmit`: fold `transmitStep` over the records the
exporter yields, stopping early when an iteration re-raises. -/
def transmitRun (client : Client) (serialize : Serializer) :
    List LearnerData → List LearnerData → List Event × List LearnerData × Bool
  | [], audit => ([], audit, false)
  | ld :: rest, audit =>
    let step := transmitStep client serialize audit ld
    if step.2.2 then (step.1, step.2.1, true)
    else
      let next := transmitRun client serialize rest step.2.1
      (step.1 ++ next.1, next.2.1, next.2.2)

/-- One iteration of the loop in `LearnerTransmitter.assessment_level_transmit`
(learner_data.py lines 119-166). -/
def assessmentStep (client : Client) (serialize : Serializer)
    (audit : List LearnerData) (ld : LearnerData) :
    List Event × List LearnerData × Bool :=
  let payload := serialize ld
  let ser := Event.serialized ld payload
  if is_already_transmitted audit ld.enterprise_course_enrollment_id ld.grade
      ld.subsection_id then
    ([ser, Event.skippedTransmitted ld.enterprise_course_enrollment_id], audit, false)
  else
    match client ld.remote_user_id payload with
    | ClientOutcome.ok code body =>
      let rec0 := { ld with
        status := toString code,
        error_message := if 400 ≤ code then body else "" }
      ([ser, Event.assessmentCall ld.remote_user_id payload, Event.saved rec0],
        audit ++ [rec0], false)
    | ClientOutcome.clientError code msg =>
      let rec0 := { ld with
        status := toString code,
        error_message := if 400 ≤ code then msg else "" }
      ([ser, Event.assessmentCall ld.remote_user_id payload, Event.saved rec0],
        audit ++ [rec0], false)
    | ClientOutcome.otherException =>
      ([ser, Event.assessmentCall ld.remote_user_id payload], audit, true)

/-- `LearnerTransmitter.assessment_level_transmit` over the records produced
by `exporter.bulk_assessment_level_export()`. -/
def assessmentRun (client : Client) (serialize : Serializer) :
    List LearnerData → List LearnerData → List Event × List LearnerData × Bool
  | [], audit => ([], audit, false)
  | ld :: rest, audit =>
    let step := assessmentStep client serialize audit ld
    if step.2.2 then (step.1, step.2.1, true)
    else
      let next := assessmentRun client serialize rest step.2.1
      (step.1 ++ next.1, next.2.1, next.2.2)

/-- One iteration of the loop in
`LearnerTransmitter.single_learner_assessment_grade_transmit`
(learner_data.py lines 44-94): no completion check and no audit lookup, the
client is called for every exported record. -/
def singleStep (client : Client) (serialize : Serializer)
    (audit : List LearnerData) (ld : LearnerData) :
    List Event × List LearnerData × Bool :=
  let payload := serialize ld
  let ser := Event.serialized ld payload
  match client ld.remote_user_id payload with
  | ClientOutcome.ok code body =>
    let rec0 := { ld with
      status := toString code,
      error_message := if 400 ≤ code then body else "" }
    ([ser, Event.assessmentCall ld.remote_user_id payload, Event.saved rec0],
      audit ++ [rec0], false)
  | ClientOutcome.clientError code msg =>
    let rec0 := { ld with
      status := toString code,
      error_message := if 400 ≤ code then msg else "" }
    ([ser, Event.assessmentCall ld.remote_user_id payload, Event.saved rec0],
      audit ++ [rec0], false)
  | ClientOutcome.otherException =>
    ([ser, Event.assessmentCall ld.remote_user_id payload], audit, true)

/-- `LearnerTransmitter.single_learner_assessment_grade_transmit` over the
records produced by `exporter.single_assessment_level_export(...)`. -/
def singleRun (client : Client) (serialize : Serializer) :
    List LearnerData → List LearnerData → List Event × List LearnerData × Bool
  | [], audit => ([], audit, false)
  | ld :: rest, audit =>
    let step := singleStep client serialize audit ld
    if step.2.2 then (step.1, step.2.1, true)
    else
      let next := singleRun client serialize rest step.2.1
      (step.1 ++ next.1, next.2.1, next.2.2)

/-- Is an event a call to the integrated-channel API client? -/
def Event.isCall : Event → Bool
  | Event.completionCall _ _ => true
  | Event.assessmentCall _ _ => true
  | _ => false

/-- Is an event a `save()` of an audit record? -/
def Event.isSave : Event → Bool
  | Event.saved _ => true
  | _ => false

/-- No client call occurs in the event list. -/
def noCalls (evs : List Event) : Bool :=
  evs.all (fun e => !e.isCall)

/-! ## `enterprise/api_client/lms.py`: `JwtLmsApiClient` -/

/-- The mutable state of a `JwtLmsApiClient` (lms.py lines 52-102): the
configured token lifetime `expires_in`, the expiry timestamp `expires_at`,
and whether `self.client` has been built by `connect()` (it is `None` right
after `__init__`).  Timestamps are the integer seconds `int(time())`. -/
structure JwtLmsApiClient where
  expires_in : Nat
  expires_at : Nat
  connected : Bool
deriving DecidableEq, Repr

/-- `JwtLmsApiClient.__init__`: `self.expires_at = 0`, `self.client = None`. -/
def JwtLmsApiClient.mk0 (expires_in : Nat) : JwtLmsApiClient :=
  { expires_in := expires_in, expires_at := 0, connected := false }

/-- `JwtLmsApiClient.token_expired`: `int(time()) > self.expires_at`. -/
def JwtLmsApiClient.token_expired (c : JwtLmsApiClient) (now : Nat) : Bool :=
  now > c.expires_at

/-- `JwtLmsApiClient.connect`: builds a fresh JWT-authenticated client and
sets `self.expires_at = now + self.expires_in`. -/
def JwtLmsApiClient.connect (c : JwtLmsApiClient) (now : Nat) : JwtLmsApiClient :=
  { c with expires_at := now + c.expires_in, connected := true }

/-- The `refresh_token` decorator (lms.py lines 89-102): before the wrapped
API method runs, reconnect exactly when the token is expired.  Returns the
client state the wrapped call then runs with, and whether `connect()` was
invoked. -/
def JwtLmsApiClient.refresh_token (c : JwtLmsApiClient) (now : Nat) :
    JwtLmsApiClient × Bool :=
  if c.token_expired now then (c.connect now, true) else (c, false)

/-! ## `enterprise/api_client/lms.py`: enrollment and course wrappers -/

/-- The exceptions relevant to the `try/except` clauses of the API wrappers:
the three caught by `except (SlumberBaseException, ConnectionError, Timeout)`
plus any other exception (which those clauses let propagate). -/
inductive ApiError where
  | slumberBase
  | connection
  | timeout
  | other
deriving DecidableEq, Repr

/-- A course-mode dictionary as handled by `get_course_modes` and
`_sort_course_modes`: the `slug` key is the only one the code reads; `extra`
stands for the rest of the dictionary, so that two modes with the same slug
can still be distinguished. -/
structure CourseMode where
  slug : String
  extra : Nat
deriving DecidableEq, Repr

/-- The slice of the course-details dictionary the claims touch: the value of
its course_modes key, read by details.get with default empty list. -/
structure CourseDetails where
  course_modes : List CourseMode
deriving DecidableEq, Repr

/-- The empty dictionary: reading course_modes from it yields the empty list. -/
def emptyCourseDetails : CourseDetails := { course_modes := [] }

/-- `EnrollmentApiClient.get_course_details` (lms.py lines 160-178): returns
the response of `self.client.course(course_id).get()`, or the empty dict when
that call raises `SlumberBaseException`, `ConnectionError` or `Timeout`; any
other exception propagates.  The outcome of the underlying request is the
parameter. -/
def EnrollmentApiClient.get_course_details
    (resp : Except ApiError CourseDetails) : Except ApiError CourseDetails :=
  match resp with
  | Except.ok d => Except.ok d
  | Except.error ApiError.slumberBase => Except.ok emptyCourseDetails
  | Except.error ApiError.connection => Except.ok emptyCourseDetails
  | Except.error ApiError.timeout => Except.ok emptyCourseDetails
  | Except.error e => Except.error e

/-- `slug_weight` (lms.py lines 190-198), parameterised by the value of the
`COURSE_MODE_SORT_ORDER` constant (defined in `enterprise/constants.py`,
outside the included sources): `len(sorting_slugs) - sorting_slugs.index(slug)`
for slugs in the list, `0` otherwise. -/
def slug_weight (sortOrder : List String) (mode : CourseMode) : Nat :=
  if mode.slug ∈ sortOrder then sortOrder.length - sortOrder.indexOf mode.slug
  else 0

/-- `EnrollmentApiClient._sort_course_modes` (lms.py lines 180-200):
sorted by slug_weight with reverse set.  The Python sorted builtin with
`reverse=True` is the stable sort placing larger weights first;
`List.insertionSort` with the total preorder "weight at least as large" is
exactly that stable sort. -/
def EnrollmentApiClient.sort_course_modes (sortOrder : List String)
    (modes : List CourseMode) : List CourseMode :=
  List.insertionSort
    (fun a b => slug_weight sortOrder b ≤ slug_weight sortOrder a) modes

/-- `EnrollmentApiClient.get_course_modes` (lms.py lines 202-216),
parameterised by the `COURSE_MODE_SORT_ORDER` and `EXCLUDED_COURSE_MODES`
constants and the underlying request outcome: fetch the details, take
`course_modes`, drop excluded slugs, sort. -/
def EnrollmentApiClient.get_course_modes (sortOrder excluded : List String)
    (resp : Except ApiError CourseDetails) : Except ApiError (List CourseMode) :=
  match EnrollmentApiClient.get_course_details resp with
  | Except.ok details =>
    Except.ok (EnrollmentApiClient.sort_course_modes sortOrder
      (details.course_modes.filter (fun m => !(excluded.contains m.slug))))
  | Except.error e => Except.error e

/-- `CourseApiClient.get_course_details` (lms.py lines 377-391): returns the
response, or `None` when the request raises `SlumberBaseException`,
`ConnectionError` or `Timeout`; other exceptions propagate. -/
def CourseApiClient.get_course_details
    (resp : Except ApiError CourseDetails) : Except ApiError (Option CourseDetails) :=
  match resp with
  | Except.ok d => Except.ok (some d)
  | Except.error ApiError.slumberBase => Except.ok none
  | Except.error ApiError.connection => Except.ok none
  | Except.error ApiError.timeout => Except.ok none
  | Except.error e => Except.error e

/-! ## `enterprise/api_client/enterprise_catalog.py`: `refresh_catalogs` -/

/-- An `EnterpriseCustomerCatalog` as used by `refresh_catalogs`: only its
`uuid` is read. -/
structure CatalogRec where
  uuid : String
deriving DecidableEq, Repr

/-- Outcome of one `endpoint.post()` to the `refresh_metadata` endpoint: a
response carrying `async_task_id`, or one of the three caught exceptions. -/
inductive RefreshOutcome where
  | ok (async_task_id : String)
  | slumberBase
  | connection
  | timeout
deriving DecidableEq, Repr

/-- Assignment `d[k] = v` on a Python dict represented as an insertion-ordered
association list: overwrite in place if the key exists, else append. -/
def dictInsert (d : List (String × String)) (k v : String) :
    List (String × String) :=
  if d.any (fun p => p.1 == k) then
    d.map (fun p => if p.1 == k then (k, v) else p)
  else d ++ [(k, v)]

/-- The loop of `EnterpriseCatalogApiClient.refresh_catalogs`
(enterprise_catalog.py lines 191-206).  The `post` parameter gives the
outcome of the i-th `endpoint.post()` (HTTP outcomes may differ between
calls, so they are indexed by call position, not by uuid). -/
def refreshLoop (post : Nat → String → RefreshOutcome) :
    List CatalogRec → Nat → List (String × String) → List String →
    List (String × String) × List String
  | [], _, refreshed, failed => (refreshed, failed)
  | c :: rest, i, refreshed, failed =>
    match post i c.uuid with
    | RefreshOutcome.ok task_id =>
      refreshLoop post rest (i + 1) (dictInsert refreshed c.uuid task_id) failed
    | _ =>
      refreshLoop post rest (i + 1) refreshed (failed ++ [c.uuid])

/-- `EnterpriseCatalogApiClient.refresh_catalogs`: returns the pair
`(refreshed_catalogs, failed_to_refresh_catalogs)`. -/
def refresh_catalogs (post : Nat → String → RefreshOutcome)
    (catalogs : List CatalogRec) : List (String × String) × List String :=
  refreshLoop post catalogs 0 [] []

/-! ## Theorems -/

/-- C4: JWT authentication is refreshed on expiry.  For every API method
wrapped with the `refresh_token` decorator: if `token_expired()` holds at
call time then `connect()` is invoked before the wrapped call and afterwards
the token is unexpired with `expires_at = now + expires_in`; a freshly
constructed client has `expires_at = 0`, so its token is expired at any
positive time; and if the token is unexpired no reconnection happens and the
call proceeds with the existing client state. -/
theorem refresh_token_refreshes_on_expiry
    (c : JwtLmsApiClient) (now lifetime : Nat) :
    (c.token_expired now = true →
      c.refresh_token now = (c.connect now, true) ∧
      (c.connect now).expires_at = now + c.expires_in ∧
      (c.connect now).token_expired now = false) ∧
    ((JwtLmsApiClient.mk0 lifetime).expires_at = 0 ∧
      (0 < now → (JwtLmsApiClient.mk0 lifetime).token_expired now = true)) ∧
    (c.token_expired now = false → c.refresh_token now = (c, false)) := by
  refine ⟨fun h => ⟨?_, rfl, ?_⟩, ⟨rfl, fun h => ?_⟩, fun h => ?_⟩
  · simp [JwtLmsApiClient.refresh_token, h]
  · simp [JwtLmsApiClient.token_expired, JwtLmsApiClient.connect]
  · simp [JwtLmsApiClient.token_expired, JwtLmsApiClient.mk0]
    omega
  · simp [JwtLmsApiClient.refresh_token, h]

/-- Witness for `refresh_token_refreshes_on_expiry` at a concrete client and
time. -/
theorem refresh_token_refreshes_on_expiry_witness :
    ((JwtLmsApiClient.mk0 5).token_expired 3 = true →
      (JwtLmsApiClient.mk0 5).refresh_token 3 = ((JwtLmsApiClient.mk0 5).connect 3, true) ∧
      ((JwtLmsApiClient.mk0 5).connect 3).expires_at = 3 + (JwtLmsApiClient.mk0 5).expires_in ∧
      ((JwtLmsApiClient.mk0 5).connect 3).token_expired 3 = false) ∧
    (((JwtLmsApiClient.mk0 5).expires_at = 0 ∧
      (0 < 3 → (JwtLmsApiClient.mk0 5).token_expired 3 = true))) ∧
    ((JwtLmsApiClient.mk0 5).token_expired 3 = false →
      (JwtLmsApiClient.mk0 5).refresh_token 3 = (JwtLmsApiClient.mk0 5, false)) :=
  refresh_token_refreshes_on_expiry (JwtLmsApiClient.mk0 5) 3 5

/-- C7: the LMS API client wrappers absorb transport and API errors rather
than propagating them: when the underlying request raises
`SlumberBaseException`, `ConnectionError` or `Timeout`,
`EnrollmentApiClient.get_course_details` returns the empty dict,
`EnrollmentApiClient.get_course_modes` consequently returns the empty list,
and `CourseApiClient.get_course_details` returns `None`; none of them
re-raise. -/
theorem lms_wrappers_absorb_errors (e : ApiError)
    (h : e = ApiError.slumberBase ∨ e = ApiError.connection ∨ e = ApiError.timeout)
    (sortOrder excluded : List String) :
    EnrollmentApiClient.get_course_details (Except.error e) =
      Except.ok emptyCourseDetails ∧
    EnrollmentApiClient.get_course_modes sortOrder excluded (Except.error e) =
      Except.ok [] ∧
    CourseApiClient.get_course_details (Except.error e) = Except.ok none := by
  rcases h with rfl | rfl | rfl <;>
    exact ⟨rfl, rfl, rfl⟩

/-- Witness for `lms_wrappers_absorb_errors` at the `Timeout` exception. -/
theorem lms_wrappers_absorb_errors_witness :
    EnrollmentApiClient.get_course_details (Except.error ApiError.timeout) =
      Except.ok emptyCourseDetails ∧
    EnrollmentApiClient.get_course_modes ["verified"] ["audit"]
      (Except.error ApiError.timeout) = Except.ok [] ∧
    CourseApiClient.get_course_details (Except.error ApiError.timeout) =
      Except.ok none :=
  lms_wrappers_absorb_errors ApiError.timeout (Or.inr (Or.inr rfl))
    ["verified"] ["audit"]

/-- The modes surviving the exclusion filter in `get_course_modes`. -/
def filteredModes (excluded : List String) (modes : List CourseMode) :
    List CourseMode :=
  modes.filter (fun m => !(excluded.contains m.slug))

/-- Inserting an element of weight `k` into a list: the weight-`k` elements
of the result are the inserted element followed by the weight-`k` elements of
the list (every element skipped over has strictly larger weight). -/
theorem filter_orderedInsert_eq {α : Type} (w : α → Nat) (k : Nat) (x : α)
    (hx : w x = k) :
    ∀ l : List α,
      (List.orderedInsert (fun a b => w b ≤ w a) x l).filter
          (fun m => w m == k) =
        x :: l.filter (fun m => w m == k)
  | [] => by simp [List.orderedInsert, hx]
  | y :: ys => by
    by_cases h : w y ≤ w x
    · rw [List.orderedInsert, if_pos h]
      simp [List.filter_cons, hx]
    · have hy : ¬ (w y = k) := by omega
      rw [List.orderedInsert, if_neg h]
      simp [List.filter_cons, hy, filter_orderedInsert_eq w k x hx ys]

/-- Inserting an element whose weight is not `k` leaves the weight-`k`
elements unchanged. -/
theorem filter_orderedInsert_ne {α : Type} (w : α → Nat) (k : Nat) (x : α)
    (hx : ¬ (w x = k)) :
    ∀ l : List α,
      (List.orderedInsert (fun a b => w b ≤ w a) x l).filter
          (fun m => w m == k) =
        l.filter (fun m => w m == k)
  | [] => by simp [List.orderedInsert, hx]
  | y :: ys => by
    by_cases h : w y ≤ w x
    · rw [List.orderedInsert, if_pos h]
      simp [List.filter_cons, hx]
    · rw [List.orderedInsert, if_neg h]
      simp [List.filter_cons, filter_orderedInsert_ne w k x hx ys]

/-- Stability of the descending-by-weight insertion sort: within each weight
class the elements keep their original relative order. -/
theorem filter_insertionSort_weight {α : Type} (w : α → Nat) (k : Nat) :
    ∀ l : List α,
      (List.insertionSort (fun a b => w b ≤ w a) l).filter
          (fun m => w m == k) =
        l.filter (fun m => w m == k)
  | [] => rfl
  | x :: xs => by
    by_cases hx : w x = k
    · rw [List.insertionSort, filter_orderedInsert_eq w k x hx,
        filter_insertionSort_weight w k xs]
      simp [List.filter_cons, hx]
    · rw [List.insertionSort, filter_orderedInsert_ne w k x hx,
        filter_insertionSort_weight w k xs]
      simp [List.filter_cons, hx]

/-- A slug that occurs in the sort order gets a strictly positive weight. -/
theorem slug_weight_pos {sortOrder : List String} {m : CourseMode}
    (h : m.slug ∈ sortOrder) : 0 < slug_weight sortOrder m := by
  have hidx := List.indexOf_lt_length.mpr h
  simp only [slug_weight, if_pos h]
  omega

/-- C8: `EnrollmentApiClient.get_course_modes` returns a permutation of
exactly those input modes whose slug is not excluded, ordered so that modes
whose slug appears in the sort order precede modes whose slug does not,
modes with an earlier position in the sort order precede those with a later
position, and modes of equal weight keep their original relative order (the
sort is stable). -/
theorem get_course_modes_perm_sorted_stable
    (sortOrder excluded : List String) (modes : List CourseMode) :
    EnrollmentApiClient.get_course_modes sortOrder excluded
        (Except.ok { course_modes := modes }) =
      Except.ok (EnrollmentApiClient.sort_course_modes sortOrder
        (filteredModes excluded modes)) ∧
    (EnrollmentApiClient.sort_course_modes sortOrder
        (filteredModes excluded modes)).Perm (filteredModes excluded modes) ∧
    (∀ i j
        (hi : i < (EnrollmentApiClient.sort_course_modes sortOrder
          (filteredModes excluded modes)).length)
        (hj : j < (EnrollmentApiClient.sort_course_modes sortOrder
          (filteredModes excluded modes)).length), i < j →
      ((EnrollmentApiClient.sort_course_modes sortOrder
        (filteredModes excluded modes))[i]).slug ∉ sortOrder →
      ((EnrollmentApiClient.sort_course_modes sortOrder
        (filteredModes excluded modes))[j]).slug ∉ sortOrder) ∧
    (∀ i j
        (hi : i < (EnrollmentApiClient.sort_course_modes sortOrder
          (filteredModes excluded modes)).length)
        (hj : j < (EnrollmentApiClient.sort_course_modes sortOrder
          (filteredModes excluded modes)).length), i < j →
      ((EnrollmentApiClient.sort_course_modes sortOrder
        (filteredModes excluded modes))[i]).slug ∈ sortOrder →
      ((EnrollmentApiClient.sort_course_modes sortOrder
        (filteredModes excluded modes))[j]).slug ∈ sortOrder →
      sortOrder.indexOf ((EnrollmentApiClient.sort_course_modes sortOrder
        (filteredModes excluded modes))[i]).slug ≤
        sortOrder.indexOf ((EnrollmentApiClient.sort_course_modes sortOrder
          (filteredModes excluded modes))[j]).slug) ∧
    (∀ k, (EnrollmentApiClient.sort_course_modes sortOrder
        (filteredModes excluded modes)).filter
          (fun m => slug_weight sortOrder m == k) =
      (filteredModes excluded modes).filter
        (fun m => slug_weight sortOrder m == k)) := by
  haveI htotal : IsTotal CourseMode
      (fun a b => slug_weight sortOrder b ≤ slug_weight sortOrder a) :=
    ⟨fun a b => Nat.le_total _ _⟩
  haveI htrans : IsTrans CourseMode
      (fun a b => slug_weight sortOrder b ≤ slug_weight sortOrder a) :=
    ⟨fun _ _ _ hab hbc => Nat.le_trans hbc hab⟩
  have hsorted : List.Sorted
      (fun a b => slug_weight sortOrder b ≤ slug_weight sortOrder a)
      (EnrollmentApiClient.sort_course_modes sortOrder
        (filteredModes excluded modes)) :=
    List.sorted_insertionSort _ _
  have hpair := List.pairwise_iff_getElem.mp hsorted
  refine ⟨rfl, List.perm_insertionSort _ _, ?_, ?_, ?_⟩
  · intro i j hi hj hij hmi hmj
    have hw := hpair i j hi hj hij
    have hzi : slug_weight sortOrder
        ((EnrollmentApiClient.sort_course_modes sortOrder
          (filteredModes excluded modes))[i]) = 0 := by
      simp [slug_weight, hmi]
    have hpos := slug_weight_pos hmj
    omega
  · intro i j hi hj hij hmi hmj
    have hw := hpair i j hi hj hij
    have hli := List.indexOf_lt_length.mpr hmi
    have hlj := List.indexOf_lt_length.mpr hmj
    simp only [slug_weight, if_pos hmi, if_pos hmj] at hw
    omega
  · intro k
    exact filter_insertionSort_weight (slug_weight sortOrder) k _

/-- Witness for `get_course_modes_perm_sorted_stable` at a concrete mode
list, with the inner index hypotheses discharged at indices 0 and 1. -/
theorem get_course_modes_perm_sorted_stable_witness :
    (EnrollmentApiClient.sort_course_modes ["verified", "audit"]
        (filteredModes ["credit"]
          [⟨"audit", 0⟩, ⟨"credit", 1⟩, ⟨"verified", 2⟩])).Perm
      (filteredModes ["credit"]
        [⟨"audit", 0⟩, ⟨"credit", 1⟩, ⟨"verified", 2⟩]) ∧
    ["verified", "audit"].indexOf
        ((EnrollmentApiClient.sort_course_modes ["verified", "audit"]
          (filteredModes ["credit"]
            [⟨"audit", 0⟩, ⟨"credit", 1⟩, ⟨"verified", 2⟩])).get ⟨0, by decide⟩).slug ≤
      ["verified", "audit"].indexOf
        ((EnrollmentApiClient.sort_course_modes ["verified", "audit"]
          (filteredModes ["credit"]
            [⟨"audit", 0⟩, ⟨"credit", 1⟩, ⟨"verified", 2⟩])).get ⟨1, by decide⟩).slug :=
  ⟨(get_course_modes_perm_sorted_stable ["verified", "audit"] ["credit"]
      [⟨"audit", 0⟩, ⟨"credit", 1⟩, ⟨"verified", 2⟩]).2.1,
   (get_course_modes_perm_sorted_stable ["verified", "audit"] ["credit"]
      [⟨"audit", 0⟩, ⟨"credit", 1⟩, ⟨"verified", 2⟩]).2.2.2.1 0 1 (by decide)
      (by decide) (by decide) (by decide) (by decide)⟩

/-- The entries `refresh_catalogs` adds to `refreshed_catalogs` while
processing a suffix of the input whose first `endpoint.post()` is call
number `i`. -/
def expectedRefreshed (post : Nat → String → RefreshOutcome) :
    List CatalogRec → Nat → List (String × String)
  | [], _ => []
  | c :: rest, i =>
    match post i c.uuid with
    | RefreshOutcome.ok t => (c.uuid, t) :: expectedRefreshed post rest (i + 1)
    | _ => expectedRefreshed post rest (i + 1)

/-- The uuids `refresh_catalogs` adds to `failed_to_refresh_catalogs` while
processing a suffix of the input whose first `endpoint.post()` is call
number `i`. -/
def expectedFailed (post : Nat → String → RefreshOutcome) :
    List CatalogRec → Nat → List String
  | [], _ => []
  | c :: rest, i =>
    match post i c.uuid with
    | RefreshOutcome.ok _ => expectedFailed post rest (i + 1)
    | _ => c.uuid :: expectedFailed post rest (i + 1)

/-- When no pending catalog uuid is already a key of the accumulated dict,
the loop of `refresh_catalogs` appends exactly the expected entries. -/
theorem refreshLoop_eq (post : Nat → String → RefreshOutcome) :
    ∀ (cs : List CatalogRec) (i : Nat) (refreshed : List (String × String))
      (failed : List String),
      (∀ c ∈ cs, ∀ p ∈ refreshed, p.1 ≠ c.uuid) →
      (cs.map CatalogRec.uuid).Nodup →
      refreshLoop post cs i refreshed failed =
        (refreshed ++ expectedRefreshed post cs i,
         failed ++ expectedFailed post cs i) := by
  intro cs
  induction cs with
  | nil => intro i refreshed failed _ _; simp [refreshLoop, expectedRefreshed, expectedFailed]
  | cons c rest ih =>
    intro i refreshed failed hfresh hnodup
    have hkey : refreshed.any (fun p => p.1 == c.uuid) = false := by
      simp only [List.any_eq_false]
      intro p hp
      simpa using hfresh c (List.mem_cons_self c rest) p hp
    have h0 : (c.uuid :: rest.map CatalogRec.uuid).Nodup := by
      rw [List.map_cons] at hnodup; exact hnodup
    have hcnotin : c.uuid ∉ rest.map CatalogRec.uuid := (List.nodup_cons.mp h0).1
    have hnodup2 : (rest.map CatalogRec.uuid).Nodup := (List.nodup_cons.mp h0).2
    cases hpost : post i c.uuid with
    | ok t =>
      have hdict : dictInsert refreshed c.uuid t = refreshed ++ [(c.uuid, t)] := by
        simp [dictInsert, hkey]
      have hfresh2 : ∀ cc ∈ rest, ∀ p ∈ refreshed ++ [(c.uuid, t)], p.1 ≠ cc.uuid := by
        intro cc hcc p hp
        rcases List.mem_append.mp hp with hp0 | hp1
        · exact hfresh cc (List.mem_cons_of_mem c hcc) p hp0
        · have hpe : p = (c.uuid, t) := by simpa using hp1
          subst hpe
          intro hEq
          refine hcnotin ?_
          rw [show c.uuid = cc.uuid from hEq]
          exact List.mem_map_of_mem CatalogRec.uuid hcc
      simp only [refreshLoop, hpost, hdict]
      rw [ih (i + 1) (refreshed ++ [(c.uuid, t)]) failed hfresh2 hnodup2]
      simp [expectedRefreshed, expectedFailed, hpost]
    | slumberBase =>
      have hfresh2 : ∀ cc ∈ rest, ∀ p ∈ refreshed, p.1 ≠ cc.uuid :=
        fun cc hcc => hfresh cc (List.mem_cons_of_mem c hcc)
      simp only [refreshLoop, hpost]
      rw [ih (i + 1) refreshed (failed ++ [c.uuid]) hfresh2 hnodup2]
      simp [expectedRefreshed, expectedFailed, hpost]
    | connection =>
      have hfresh2 : ∀ cc ∈ rest, ∀ p ∈ refreshed, p.1 ≠ cc.uuid :=
        fun cc hcc => hfresh cc (List.mem_cons_of_mem c hcc)
      simp only [refreshLoop, hpost]
      rw [ih (i + 1) refreshed (failed ++ [c.uuid]) hfresh2 hnodup2]
      simp [expectedRefreshed, expectedFailed, hpost]
    | timeout =>
      have hfresh2 : ∀ cc ∈ rest, ∀ p ∈ refreshed, p.1 ≠ cc.uuid :=
        fun cc hcc => hfresh cc (List.mem_cons_of_mem c hcc)
      simp only [refreshLoop, hpost]
      rw [ih (i + 1) refreshed (failed ++ [c.uuid]) hfresh2 hnodup2]
      simp [expectedRefreshed, expectedFailed, hpost]

/-- Membership in the refreshed-catalog entries: exactly the input positions
whose POST succeeded. -/
theorem mem_expectedRefreshed (post : Nat → String → RefreshOutcome) :
    ∀ (cs : List CatalogRec) (i : Nat) (u t : String),
      ((u, t) ∈ expectedRefreshed post cs i ↔
        ∃ j, ∃ hj : j < cs.length,
          (cs.get ⟨j, hj⟩).uuid = u ∧ post (i + j) u = RefreshOutcome.ok t)
  | [], i, u, t => by simp [expectedRefreshed]
  | c :: rest, i, u, t => by
    cases hpost : post i c.uuid with
    | ok t0 =>
      simp only [expectedRefreshed, hpost, List.mem_cons]
      constructor
      · rintro (hEq | hmem)
        · have hu : u = c.uuid := congrArg Prod.fst hEq
          have ht : t = t0 := congrArg Prod.snd hEq
          refine ⟨0, Nat.succ_pos _, by simpa using hu.symm, ?_⟩
          rw [hu, ht]
          simpa using hpost
        · rcases (mem_expectedRefreshed post rest (i + 1) u t).mp hmem with
            ⟨j, hj, h1, h2⟩
          refine ⟨j + 1, Nat.succ_lt_succ hj, by simpa using h1, ?_⟩
          have hx : i + (j + 1) = i + 1 + j := by omega
          rw [hx]; exact h2
      · rintro ⟨j, hj, h1, h2⟩
        cases j with
        | zero =>
          have hu : c.uuid = u := by simpa using h1
          have hp : post i u = RefreshOutcome.ok t := by simpa using h2
          rw [← hu, hpost] at hp
          have ht : t0 = t := by injection hp
          left
          rw [← hu, ← ht]
        | succ j =>
          right
          refine (mem_expectedRefreshed post rest (i + 1) u t).mpr
            ⟨j, Nat.lt_of_succ_lt_succ hj, by simpa using h1, ?_⟩
          have hx : i + 1 + j = i + (j + 1) := by omega
          rw [hx]; exact h2
    | slumberBase =>
      simp only [expectedRefreshed, hpost]
      rw [mem_expectedRefreshed post rest (i + 1) u t]
      constructor
      · rintro ⟨j, hj, h1, h2⟩
        refine ⟨j + 1, Nat.succ_lt_succ hj, by simpa using h1, ?_⟩
        have hx : i + (j + 1) = i + 1 + j := by omega
        rw [hx]; exact h2
      · rintro ⟨j, hj, h1, h2⟩
        cases j with
        | zero =>
          exfalso
          have hu : c.uuid = u := by simpa using h1
          have hp : post i u = RefreshOutcome.ok t := by simpa using h2
          rw [← hu, hpost] at hp
          cases hp
        | succ j =>
          refine ⟨j, Nat.lt_of_succ_lt_succ hj, by simpa using h1, ?_⟩
          have hx : i + 1 + j = i + (j + 1) := by omega
          rw [hx]; exact h2
    | connection =>
      simp only [expectedRefreshed, hpost]
      rw [mem_expectedRefreshed post rest (i + 1) u t]
      constructor
      · rintro ⟨j, hj, h1, h2⟩
        refine ⟨j + 1, Nat.succ_lt_succ hj, by simpa using h1, ?_⟩
        have hx : i + (j + 1) = i + 1 + j := by omega
        rw [hx]; exact h2
      · rintro ⟨j, hj, h1, h2⟩
        cases j with
        | zero =>
          exfalso
          have hu : c.uuid = u := by simpa using h1
          have hp : post i u = RefreshOutcome.ok t := by simpa using h2
          rw [← hu, hpost] at hp
          cases hp
        | succ j =>
          refine ⟨j, Nat.lt_of_succ_lt_succ hj, by simpa using h1, ?_⟩
          have hx : i + 1 + j = i + (j + 1) := by omega
          rw [hx]; exact h2
    | timeout =>
      simp only [expectedRefreshed, hpost]
      rw [mem_expectedRefreshed post rest (i + 1) u t]
      constructor
      · rintro ⟨j, hj, h1, h2⟩
        refine ⟨j + 1, Nat.succ_lt_succ hj, by simpa using h1, ?_⟩
        have hx : i + (j + 1) = i + 1 + j := by omega
        rw [hx]; exact h2
      · rintro ⟨j, hj, h1, h2⟩
        cases j with
        | zero =>
          exfalso
          have hu : c.uuid = u := by simpa using h1
          have hp : post i u = RefreshOutcome.ok t := by simpa using h2
          rw [← hu, hpost] at hp
          cases hp
        | succ j =>
          refine ⟨j, Nat.lt_of_succ_lt_succ hj, by simpa using h1, ?_⟩
          have hx : i + 1 + j = i + (j + 1) := by omega
          rw [hx]; exact h2

/-- Membership in the failed-uuid list: exactly the input positions whose
POST raised one of the caught exceptions. -/
theorem mem_expectedFailed (post : Nat → String → RefreshOutcome) :
    ∀ (cs : List CatalogRec) (i : Nat) (u : String),
      (u ∈ expectedFailed post cs i ↔
        ∃ j, ∃ hj : j < cs.length,
          (cs.get ⟨j, hj⟩).uuid = u ∧
          ∀ t, post (i + j) u ≠ RefreshOutcome.ok t)
  | [], i, u => by simp [expectedFailed]
  | c :: rest, i, u => by
    cases hpost : post i c.uuid with
    | ok t0 =>
      simp only [expectedFailed, hpost]
      rw [mem_expectedFailed post rest (i + 1) u]
      constructor
      · rintro ⟨j, hj, h1, h2⟩
        refine ⟨j + 1, Nat.succ_lt_succ hj, by simpa using h1, ?_⟩
        have hx : i + (j + 1) = i + 1 + j := by omega
        rw [hx]; exact h2
      · rintro ⟨j, hj, h1, h2⟩
        cases j with
        | zero =>
          exfalso
          have hu : c.uuid = u := by simpa using h1
          refine h2 t0 ?_
          have hx : i + 0 = i := rfl
          rw [hx, ← hu]
          exact hpost
        | succ j =>
          refine ⟨j, Nat.lt_of_succ_lt_succ hj, by simpa using h1, ?_⟩
          have hx : i + 1 + j = i + (j + 1) := by omega
          rw [hx]; exact h2
    | slumberBase =>
      simp only [expectedFailed, hpost, List.mem_cons]
      constructor
      · rintro (hEq | hmem)
        · refine ⟨0, Nat.succ_pos _, by simpa using hEq.symm, ?_⟩
          intro t
          have hx : i + 0 = i := rfl
          rw [hx, hEq]
          rw [hpost]
          intro hc
          cases hc
        · rcases (mem_expectedFailed post rest (i + 1) u).mp hmem with ⟨j, hj, h1, h2⟩
          refine ⟨j + 1, Nat.succ_lt_succ hj, by simpa using h1, ?_⟩
          have hx : i + (j + 1) = i + 1 + j := by omega
          rw [hx]; exact h2
      · rintro ⟨j, hj, h1, h2⟩
        cases j with
        | zero =>
          left
          exact (by simpa using h1 : c.uuid = u).symm
        | succ j =>
          right
          refine (mem_expectedFailed post rest (i + 1) u).mpr
            ⟨j, Nat.lt_of_succ_lt_succ hj, by simpa using h1, ?_⟩
          have hx : i + 1 + j = i + (j + 1) := by omega
          rw [hx]; exact h2
    | connection =>
      simp only [expectedFailed, hpost, List.mem_cons]
      constructor
      · rintro (hEq | hmem)
        · refine ⟨0, Nat.succ_pos _, by simpa using hEq.symm, ?_⟩
          intro t
          have hx : i + 0 = i := rfl
          rw [hx, hEq]
          rw [hpost]
          intro hc
          cases hc
        · rcases (mem_expectedFailed post rest (i + 1) u).mp hmem with ⟨j, hj, h1, h2⟩
          refine ⟨j + 1, Nat.succ_lt_succ hj, by simpa using h1, ?_⟩
          have hx : i + (j + 1) = i + 1 + j := by omega
          rw [hx]; exact h2
      · rintro ⟨j, hj, h1, h2⟩
        cases j with
        | zero =>
          left
          exact (by simpa using h1 : c.uuid = u).symm
        | succ j =>
          right
          refine (mem_expectedFailed post rest (i + 1) u).mpr
            ⟨j, Nat.lt_of_succ_lt_succ hj, by simpa using h1, ?_⟩
          have hx : i + 1 + j = i + (j + 1) := by omega
          rw [hx]; exact h2
    | timeout =>
      simp only [expectedFailed, hpost, List.mem_cons]
      constructor
      · rintro (hEq | hmem)
        · refine ⟨0, Nat.succ_pos _, by simpa using hEq.symm, ?_⟩
          intro t
          have hx : i + 0 = i := rfl
          rw [hx, hEq]
          rw [hpost]
          intro hc
          cases hc
        · rcases (mem_expectedFailed post rest (i + 1) u).mp hmem with ⟨j, hj, h1, h2⟩
          refine ⟨j + 1, Nat.succ_lt_succ hj, by simpa using h1, ?_⟩
          have hx : i + (j + 1) = i + 1 + j := by omega
          rw [hx]; exact h2
      · rintro ⟨j, hj, h1, h2⟩
        cases j with
        | zero =>
          left
          exact (by simpa using h1 : c.uuid = u).symm
        | succ j =>
          right
          refine (mem_expectedFailed post rest (i + 1) u).mpr
            ⟨j, Nat.lt_of_succ_lt_succ hj, by simpa using h1, ?_⟩
          have hx : i + 1 + j = i + (j + 1) := by omega
          rw [hx]; exact h2

/-- A response schedule where the first POST times out and later POSTs
succeed. -/
def flakyPost : Nat → String → RefreshOutcome :=
  fun i _ => if i = 0 then RefreshOutcome.timeout else RefreshOutcome.ok "task-1"

/-- C9 counterexample: with the same catalog listed twice, a first POST that
times out and a second that succeeds put the uuid both into the refreshed
dict and into the failed list, so it does not appear in exactly one of the
two returned values. -/
theorem refresh_catalogs_uuid_in_both :
    (("u", "task-1") ∈ (refresh_catalogs flakyPost [⟨"u"⟩, ⟨"u"⟩]).1) ∧
    "u" ∈ (refresh_catalogs flakyPost [⟨"u"⟩, ⟨"u"⟩]).2 := by decide

/-- C9 (amended: for catalog lists whose uuids are pairwise distinct):
`refresh_catalogs` partitions its input — the uuid at each position lands in
the refreshed dict (mapped to the async task id) exactly when its POST
succeeds and in the failed list exactly when its POST raises one of the
caught exceptions, and no uuid outside the input appears in either. -/
theorem refresh_catalogs_partition
    (post : Nat → String → RefreshOutcome) (catalogs : List CatalogRec)
    (hnodup : (catalogs.map CatalogRec.uuid).Nodup) :
    (∀ j (hj : j < catalogs.length) (t : String),
      post j (catalogs.get ⟨j, hj⟩).uuid = RefreshOutcome.ok t →
      ((catalogs.get ⟨j, hj⟩).uuid, t) ∈ (refresh_catalogs post catalogs).1 ∧
      (catalogs.get ⟨j, hj⟩).uuid ∉ (refresh_catalogs post catalogs).2) ∧
    (∀ j (hj : j < catalogs.length),
      (∀ t, post j (catalogs.get ⟨j, hj⟩).uuid ≠ RefreshOutcome.ok t) →
      ((catalogs.get ⟨j, hj⟩).uuid ∈ (refresh_catalogs post catalogs).2 ∧
       ∀ t, ((catalogs.get ⟨j, hj⟩).uuid, t) ∉ (refresh_catalogs post catalogs).1)) ∧
    (∀ u : String,
      ((∃ t, (u, t) ∈ (refresh_catalogs post catalogs).1) ∨
        u ∈ (refresh_catalogs post catalogs).2) →
      u ∈ catalogs.map CatalogRec.uuid) := by
  have hres : refresh_catalogs post catalogs =
      (expectedRefreshed post catalogs 0, expectedFailed post catalogs 0) := by
    unfold refresh_catalogs
    rw [refreshLoop_eq post catalogs 0 [] [] (by intro c hc p hp; cases hp) hnodup]
    simp
  have hinj : ∀ j1 j2 (h1 : j1 < catalogs.length) (h2 : j2 < catalogs.length),
      (catalogs.get ⟨j1, h1⟩).uuid = (catalogs.get ⟨j2, h2⟩).uuid → j1 = j2 := by
    intro j1 j2 h1 h2 hEq
    have hg : (catalogs.map CatalogRec.uuid).get ⟨j1, by simpa using h1⟩ =
        (catalogs.map CatalogRec.uuid).get ⟨j2, by simpa using h2⟩ := by
      simp only [List.get_eq_getElem, List.getElem_map]
      simpa [List.get_eq_getElem] using hEq
    exact congrArg Fin.val ((List.Nodup.get_inj_iff hnodup).mp hg)
  refine ⟨?_, ?_, ?_⟩
  · intro j hj t hok
    constructor
    · rw [hres]
      refine (mem_expectedRefreshed post catalogs 0 _ t).mpr ⟨j, hj, rfl, ?_⟩
      rw [Nat.zero_add]; exact hok
    · rw [hres]
      intro hmem
      rcases (mem_expectedFailed post catalogs 0 _).mp hmem with ⟨j2, hj2, h1, h2⟩
      have hjj : j2 = j := hinj j2 j hj2 hj h1
      subst hjj
      exact h2 t (by rw [Nat.zero_add]; exact hok)
  · intro j hj hfail
    constructor
    · rw [hres]
      refine (mem_expectedFailed post catalogs 0 _).mpr ⟨j, hj, rfl, ?_⟩
      intro t
      rw [Nat.zero_add]
      exact hfail t
    · intro t
      rw [hres]
      intro hmem
      rcases (mem_expectedRefreshed post catalogs 0 _ t).mp hmem with ⟨j2, hj2, h1, h2⟩
      have hjj : j2 = j := hinj j2 j hj2 hj h1
      subst hjj
      rw [Nat.zero_add] at h2
      exact hfail t h2
  · intro u hu
    rcases hu with ⟨t, hmem⟩ | hmem
    · rw [hres] at hmem
      rcases (mem_expectedRefreshed post catalogs 0 u t).mp hmem with ⟨j, hj, h1, _⟩
      rw [← h1]
      exact List.mem_map_of_mem CatalogRec.uuid (catalogs.get_mem j hj)
    · rw [hres] at hmem
      rcases (mem_expectedFailed post catalogs 0 u).mp hmem with ⟨j, hj, h1, _⟩
      rw [← h1]
      exact List.mem_map_of_mem CatalogRec.uuid (catalogs.get_mem j hj)

/-- A response schedule where the first POST succeeds and later POSTs time
out. -/
def okThenTimeoutPost : Nat → String → RefreshOutcome :=
  fun i _ => if i = 0 then RefreshOutcome.ok "task-0" else RefreshOutcome.timeout

/-- Witness for `refresh_catalogs_partition` at a concrete two-catalog input
with one success and one failure. -/
theorem refresh_catalogs_partition_witness :
    ("a", "task-0") ∈ (refresh_catalogs okThenTimeoutPost [⟨"a"⟩, ⟨"b"⟩]).1 ∧
    "b" ∈ (refresh_catalogs okThenTimeoutPost [⟨"a"⟩, ⟨"b"⟩]).2 :=
  ⟨((refresh_catalogs_partition okThenTimeoutPost [⟨"a"⟩, ⟨"b"⟩] (by decide)).1
      0 (by decide) "task-0" (by decide)).1,
   ((refresh_catalogs_partition okThenTimeoutPost [⟨"a"⟩, ⟨"b"⟩] (by decide)).2.1
      1 (by decide) (fun t h => RefreshOutcome.noConfusion h)).1⟩

/-- Case analysis of one `transmit` iteration: a record is skipped as
in-progress, skipped as already transmitted, sent and saved, or the client
call raises an uncaught exception. -/
theorem transmitStep_chars (client : Client) (s : Serializer)
    (A : List LearnerData) (ld : LearnerData) :
    (transmitStep client s A ld =
        ([Event.serialized ld (s ld),
          Event.skippedIncomplete ld.enterprise_course_enrollment_id], A, false) ∧
      ld.course_completed = false) ∨
    (transmitStep client s A ld =
        ([Event.serialized ld (s ld),
          Event.skippedTransmitted ld.enterprise_course_enrollment_id], A, false) ∧
      ld.course_completed = true ∧
      is_already_transmitted A ld.enterprise_course_enrollment_id ld.grade none = true) ∨
    (∃ st em, transmitStep client s A ld =
        ([Event.serialized ld (s ld),
          Event.completionCall ld.remote_user_id (s ld),
          Event.saved { ld with status := st, error_message := em }],
         A ++ [{ ld with status := st, error_message := em }], false) ∧
      ld.course_completed = true ∧
      is_already_transmitted A ld.enterprise_course_enrollment_id ld.grade none = false) ∨
    (transmitStep client s A ld =
        ([Event.serialized ld (s ld),
          Event.completionCall ld.remote_user_id (s ld)], A, true) ∧
      client ld.remote_user_id (s ld) = ClientOutcome.otherException ∧
      ld.course_completed = true ∧
      is_already_transmitted A ld.enterprise_course_enrollment_id ld.grade none = false) := by
  by_cases hc : ld.course_completed = false
  · exact Or.inl ⟨by simp [transmitStep, hc], hc⟩
  · have hc2 : ld.course_completed = true := by
      cases hcb : ld.course_completed
      · exact absurd hcb hc
      · rfl
    by_cases ht : is_already_transmitted A ld.enterprise_course_enrollment_id
        ld.grade none = true
    · exact Or.inr (Or.inl ⟨by simp [transmitStep, hc2, ht], hc2, ht⟩)
    · have ht2 : is_already_transmitted A ld.enterprise_course_enrollment_id
          ld.grade none = false := by
        cases htb : is_already_transmitted A ld.enterprise_course_enrollment_id
            ld.grade none
        · rfl
        · exact absurd htb ht
      cases hcl : client ld.remote_user_id (s ld) with
      | ok code body =>
        refine Or.inr (Or.inr (Or.inl ?_))
        by_cases h4 : 400 ≤ code
        · exact ⟨toString code, "Client create_course_completion failed: " ++ body,
            by simp [transmitStep, hc2, ht2, hcl, h4], hc2, ht2⟩
        · exact ⟨toString code, "",
            by simp [transmitStep, hc2, ht2, hcl, h4], hc2, ht2⟩
      | clientError code msg =>
        refine Or.inr (Or.inr (Or.inl ?_))
        exact ⟨toString code, if 400 ≤ code then msg else "",
          by simp [transmitStep, hc2, ht2, hcl], hc2, ht2⟩
      | otherException =>
        exact Or.inr (Or.inr (Or.inr
          ⟨by simp [transmitStep, hc2, ht2, hcl], rfl, hc2, ht2⟩))

/-- Unfolding of a non-aborting first `transmit` iteration: the loop
proceeds to the remaining records. -/
theorem transmitRun_cons (client : Client) (s : Serializer)
    (ld : LearnerData) (rest A : List LearnerData)
    (h : (transmitStep client s A ld).2.2 = false) :
    transmitRun client s (ld :: rest) A =
      ((transmitStep client s A ld).1 ++
        (transmitRun client s rest (transmitStep client s A ld).2.1).1,
       (transmitRun client s rest (transmitStep client s A ld).2.1).2.1,
       (transmitRun client s rest (transmitStep client s A ld).2.1).2.2) := by
  simp [transmitRun, h]

/-- Unfolding of an aborting first `transmit` iteration: the loop stops. -/
theorem transmitRun_cons_abort (client : Client) (s : Serializer)
    (ld : LearnerData) (rest A : List LearnerData)
    (h : (transmitStep client s A ld).2.2 = true) :
    transmitRun client s (ld :: rest) A =
      ((transmitStep client s A ld).1, (transmitStep client s A ld).2.1, true) := by
  simp [transmitRun, h]

/-- A non-aborting `transmit` run has a non-aborting first iteration and a
non-aborting remainder. -/
theorem transmitRun_not_abort (client : Client) (s : Serializer)
    (ld : LearnerData) (rest A : List LearnerData)
    (h : (transmitRun client s (ld :: rest) A).2.2 = false) :
    (transmitStep client s A ld).2.2 = false ∧
    (transmitRun client s rest (transmitStep client s A ld).2.1).2.2 = false := by
  by_cases hstep : (transmitStep client s A ld).2.2 = true
  · rw [transmitRun_cons_abort client s ld rest A hstep] at h
    cases h
  · have hs : (transmitStep client s A ld).2.2 = false := by
      cases hb : (transmitStep client s A ld).2.2
      · rfl
      · exact absurd hb hstep
    rw [transmitRun_cons client s ld rest A hs] at h
    exact ⟨hs, h⟩

/-- Case analysis of one `assessment_level_transmit` iteration. -/
theorem assessmentStep_chars (client : Client) (s : Serializer)
    (A : List LearnerData) (ld : LearnerData) :
    (assessmentStep client s A ld =
        ([Event.serialized ld (s ld),
          Event.skippedTransmitted ld.enterprise_course_enrollment_id], A, false) ∧
      is_already_transmitted A ld.enterprise_course_enrollment_id ld.grade
        ld.subsection_id = true) ∨
    (∃ st em, assessmentStep client s A ld =
        ([Event.serialized ld (s ld),
          Event.assessmentCall ld.remote_user_id (s ld),
          Event.saved { ld with status := st, error_message := em }],
         A ++ [{ ld with status := st, error_message := em }], false) ∧
      is_already_transmitted A ld.enterprise_course_enrollment_id ld.grade
        ld.subsection_id = false) ∨
    (assessmentStep client s A ld =
        ([Event.serialized ld (s ld),
          Event.assessmentCall ld.remote_user_id (s ld)], A, true) ∧
      client ld.remote_user_id (s ld) = ClientOutcome.otherException ∧
      is_already_transmitted A ld.enterprise_course_enrollment_id ld.grade
        ld.subsection_id = false) := by
  by_cases ht : is_already_transmitted A ld.enterprise_course_enrollment_id
      ld.grade ld.subsection_id = true
  · exact Or.inl ⟨by simp [assessmentStep, ht], ht⟩
  · have ht2 : is_already_transmitted A ld.enterprise_course_enrollment_id
        ld.grade ld.subsection_id = false := by
      cases htb : is_already_transmitted A ld.enterprise_course_enrollment_id
          ld.grade ld.subsection_id
      · rfl
      · exact absurd htb ht
    cases hcl : client ld.remote_user_id (s ld) with
    | ok code body =>
      exact Or.inr (Or.inl ⟨toString code, if 400 ≤ code then body else "",
        by simp [assessmentStep, ht2, hcl], ht2⟩)
    | clientError code msg =>
      exact Or.inr (Or.inl ⟨toString code, if 400 ≤ code then msg else "",
        by simp [assessmentStep, ht2, hcl], ht2⟩)
    | otherException =>
      exact Or.inr (Or.inr ⟨by simp [assessmentStep, ht2, hcl], rfl, ht2⟩)

/-- Case analysis of one `single_learner_assessment_grade_transmit`
iteration: there is no skip branch of any kind. -/
theorem singleStep_chars (client : Client) (s : Serializer)
    (A : List LearnerData) (ld : LearnerData) :
    (∃ st em, singleStep client s A ld =
        ([Event.serialized ld (s ld),
          Event.assessmentCall ld.remote_user_id (s ld),
          Event.saved { ld with status := st, error_message := em }],
         A ++ [{ ld with status := st, error_message := em }], false)) ∨
    (singleStep client s A ld =
        ([Event.serialized ld (s ld),
          Event.assessmentCall ld.remote_user_id (s ld)], A, true) ∧
      client ld.remote_user_id (s ld) = ClientOutcome.otherException) := by
  cases hcl : client ld.remote_user_id (s ld) with
  | ok code body =>
    exact Or.inl ⟨toString code, if 400 ≤ code then body else "",
      by simp [singleStep, hcl]⟩
  | clientError code msg =>
    exact Or.inl ⟨toString code, if 400 ≤ code then msg else "",
      by simp [singleStep, hcl]⟩
  | otherException =>
    exact Or.inr ⟨by simp [singleStep, hcl], rfl⟩

/-- Unfolding of a non-aborting first `assessment_level_transmit`
iteration. -/
theorem assessmentRun_cons (client : Client) (s : Serializer)
    (ld : LearnerData) (rest A : List LearnerData)
    (h : (assessmentStep client s A ld).2.2 = false) :
    assessmentRun client s (ld :: rest) A =
      ((assessmentStep client s A ld).1 ++
        (assessmentRun client s rest (assessmentStep client s A ld).2.1).1,
       (assessmentRun client s rest (assessmentStep client s A ld).2.1).2.1,
       (assessmentRun client s rest (assessmentStep client s A ld).2.1).2.2) := by
  simp [assessmentRun, h]

/-- Unfolding of a non-aborting first
`single_learner_assessment_grade_transmit` iteration. -/
theorem singleRun_cons (client : Client) (s : Serializer)
    (ld : LearnerData) (rest A : List LearnerData)
    (h : (singleStep client s A ld).2.2 = false) :
    singleRun client s (ld :: rest) A =
      ((singleStep client s A ld).1 ++
        (singleRun client s rest (singleStep client s A ld).2.1).1,
       (singleRun client s rest (singleStep client s A ld).2.1).2.1,
       (singleRun client s rest (singleStep client s A ld).2.1).2.2) := by
  simp [singleRun, h]

/-- The last matching row of a concatenation: rows appended later shadow
earlier ones. -/
theorem lastMatch_append (p : LearnerData → Bool) :
    ∀ (A B : List LearnerData),
      lastMatch p (A ++ B) =
        match lastMatch p B with
        | some x => some x
        | none => lastMatch p A
  | [], B => by cases h : lastMatch p B <;> simp [lastMatch, h]
  | r :: rs, B => by
    have ih := lastMatch_append p rs B
    cases h : lastMatch p B with
    | some x => simp [lastMatch, ih, h]
    | none => simp [lastMatch, ih, h]

/-- A last matching row is a member and matches. -/
theorem lastMatch_mem (p : LearnerData → Bool) :
    ∀ (l : List LearnerData) (x : LearnerData),
      lastMatch p l = some x → x ∈ l ∧ p x = true
  | [], x => by simp [lastMatch]
  | r :: rs, x => by
    cases h : lastMatch p rs with
    | some y =>
      intro hEq
      have hyx : y = x := by simpa [lastMatch, h] using hEq
      subst hyx
      have hy := lastMatch_mem p rs y h
      exact ⟨List.mem_cons_of_mem r hy.1, hy.2⟩
    | none =>
      intro hEq
      by_cases hp : p r = true
      · have hrx : r = x := by simpa [lastMatch, h, hp] using hEq
        subst hrx
        exact ⟨List.mem_cons_self r rs, hp⟩
      · simp [lastMatch, h, hp] at hEq

/-- Appending rows that carry the same grade whenever they answer the query
preserves a positive `is_already_transmitted` verdict. -/
theorem is_already_transmitted_append (eid : Nat) (g : Option Int)
    (sub : Option Nat) (A rows : List LearnerData)
    (hA : is_already_transmitted A eid g sub = true)
    (hrows : ∀ w ∈ rows, matchesQuery eid sub w = true → w.grade = g) :
    is_already_transmitted (A ++ rows) eid g sub = true := by
  unfold is_already_transmitted at hA ⊢
  rw [lastMatch_append]
  cases h : lastMatch (matchesQuery eid sub) rows with
  | none => exact hA
  | some x =>
    have hx := lastMatch_mem (matchesQuery eid sub) rows x h
    have hg := hrows x hx.1 hx.2
    simp [hg]

/-- Saving a record makes a subsequent no-subsection audit lookup for its
enrollment and grade succeed. -/
theorem is_already_transmitted_after_save (A : List LearnerData)
    (w : LearnerData) (eid : Nat)
    (hw : w.enterprise_course_enrollment_id = eid) :
    is_already_transmitted (A ++ [w]) eid w.grade none = true := by
  unfold is_already_transmitted
  rw [lastMatch_append]
  have hmq : matchesQuery eid none w = true := by
    simp [matchesQuery, hw]
  have hl : lastMatch (matchesQuery eid none) [w] = some w := by
    simp [lastMatch, hmq]
  rw [hl]
  simp

/-- The audit table only grows during a `transmit` run, and every new row
keeps the enrollment id and grade of some exported record. -/
theorem transmitRun_audit_rows (client : Client) (s : Serializer) :
    ∀ (L A : List LearnerData),
      ∃ rows, (transmitRun client s L A).2.1 = A ++ rows ∧
        ∀ w ∈ rows, ∃ ld, ld ∈ L ∧
          w.enterprise_course_enrollment_id = ld.enterprise_course_enrollment_id ∧
          w.grade = ld.grade
  | [], A => ⟨[], by simp [transmitRun], by simp⟩
  | ld :: rest, A => by
    rcases transmitStep_chars client s A ld with
      ⟨hEq, _⟩ | ⟨hEq, _, _⟩ | ⟨st, em, hEq, _, _⟩ | ⟨hEq, _, _, _⟩
    · have hstep : (transmitStep client s A ld).2.2 = false := by rw [hEq]
      rw [transmitRun_cons client s ld rest A hstep]
      rcases transmitRun_audit_rows client s rest (transmitStep client s A ld).2.1 with
        ⟨rows, hrows_eq, hrows⟩
      refine ⟨rows, ?_, ?_⟩
      · rw [hrows_eq, hEq]
      · intro w hw
        rcases hrows w hw with ⟨ld2, hld2, h1, h2⟩
        exact ⟨ld2, List.mem_cons_of_mem ld hld2, h1, h2⟩
    · have hstep : (transmitStep client s A ld).2.2 = false := by rw [hEq]
      rw [transmitRun_cons client s ld rest A hstep]
      rcases transmitRun_audit_rows client s rest (transmitStep client s A ld).2.1 with
        ⟨rows, hrows_eq, hrows⟩
      refine ⟨rows, ?_, ?_⟩
      · rw [hrows_eq, hEq]
      · intro w hw
        rcases hrows w hw with ⟨ld2, hld2, h1, h2⟩
        exact ⟨ld2, List.mem_cons_of_mem ld hld2, h1, h2⟩
    · have hstep : (transmitStep client s A ld).2.2 = false := by rw [hEq]
      rw [transmitRun_cons client s ld rest A hstep]
      rcases transmitRun_audit_rows client s rest (transmitStep client s A ld).2.1 with
        ⟨rows, hrows_eq, hrows⟩
      refine ⟨{ ld with status := st, error_message := em } :: rows, ?_, ?_⟩
      · rw [hrows_eq, hEq]
        simp
      · intro w hw
        rcases List.mem_cons.mp hw with rfl | hw2
        · exact ⟨ld, List.mem_cons_self ld rest, rfl, rfl⟩
        · rcases hrows w hw2 with ⟨ld2, hld2, h1, h2⟩
          exact ⟨ld2, List.mem_cons_of_mem ld hld2, h1, h2⟩
    · have hstep : (transmitStep client s A ld).2.2 = true := by rw [hEq]
      rw [transmitRun_cons_abort client s ld rest A hstep]
      refine ⟨[], ?_, by simp⟩
      rw [hEq]
      simp

/-- After a `transmit` run that raises no uncaught exception, over records in
which equal enrollment ids carry equal grades, every completed exported
record is reported as already transmitted by the final audit table. -/
theorem transmitRun_establishes_audit (client : Client) (s : Serializer) :
    ∀ (L A : List LearnerData),
      (∀ a ∈ L, ∀ b ∈ L,
        a.enterprise_course_enrollment_id = b.enterprise_course_enrollment_id →
        a.grade = b.grade) →
      (transmitRun client s L A).2.2 = false →
      ∀ r ∈ L, r.course_completed = true →
        is_already_transmitted (transmitRun client s L A).2.1
          r.enterprise_course_enrollment_id r.grade none = true
  | [], A => by
    intro _ _ r hr
    cases hr
  | ld :: rest, A => by
    intro hgr hab r hrmem hrc
    obtain ⟨hstep, hrest⟩ := transmitRun_not_abort client s ld rest A hab
    rw [transmitRun_cons client s ld rest A hstep]
    have hgr2 : ∀ a ∈ rest, ∀ b ∈ rest,
        a.enterprise_course_enrollment_id = b.enterprise_course_enrollment_id →
        a.grade = b.grade :=
      fun a ha b hb =>
        hgr a (List.mem_cons_of_mem ld ha) b (List.mem_cons_of_mem ld hb)
    rcases List.mem_cons.mp hrmem with rfl | hr2
    · rcases transmitStep_chars client s A r with
        ⟨hEq, hcf⟩ | ⟨hEq, _, hiat⟩ | ⟨st, em, hEq, _, hiat⟩ | ⟨hEq, _, _, _⟩
      · rw [hcf] at hrc
        cases hrc
      · rcases transmitRun_audit_rows client s rest
          (transmitStep client s A r).2.1 with ⟨rows, hrows_eq, hrows⟩
        rw [hrows_eq, hEq]
        refine is_already_transmitted_append _ _ _ _ _ hiat ?_
        intro w hw hmq
        rcases hrows w hw with ⟨ld2, hld2, h1, h2⟩
        have hweid : w.enterprise_course_enrollment_id =
            r.enterprise_course_enrollment_id := by
          simpa [matchesQuery] using hmq
        have hld2eid : ld2.enterprise_course_enrollment_id =
            r.enterprise_course_enrollment_id := by
          rw [← h1, hweid]
        have := hgr ld2 (List.mem_cons_of_mem r hld2) r (List.mem_cons_self r rest)
          hld2eid
        rw [h2, this]
      · rcases transmitRun_audit_rows client s rest
          (transmitStep client s A r).2.1 with ⟨rows, hrows_eq, hrows⟩
        rw [hrows_eq, hEq]
        refine is_already_transmitted_append _ _ _ _ _ ?_ ?_
        · exact is_already_transmitted_after_save A _ _ rfl
        · intro w hw hmq
          rcases hrows w hw with ⟨ld2, hld2, h1, h2⟩
          have hweid : w.enterprise_course_enrollment_id =
              r.enterprise_course_enrollment_id := by
            simpa [matchesQuery] using hmq
          have hld2eid : ld2.enterprise_course_enrollment_id =
              r.enterprise_course_enrollment_id := by
            rw [← h1, hweid]
          have := hgr ld2 (List.mem_cons_of_mem r hld2) r
            (List.mem_cons_self r rest) hld2eid
          rw [h2, this]
      · have : (transmitStep client s A r).2.2 = true := by rw [hEq]
        rw [this] at hstep
        cases hstep
    · exact transmitRun_establishes_audit client s rest
        (transmitStep client s A ld).2.1 hgr2 hrest r hr2 hrc

/-- A `transmit` run over records that are all skipped (not completed, or
already transmitted) makes no client call, saves nothing and does not
abort. -/
theorem transmitRun_all_skipped (client : Client) (s : Serializer) :
    ∀ (L A : List LearnerData),
      (∀ r ∈ L, r.course_completed = true →
        is_already_transmitted A r.enterprise_course_enrollment_id
          r.grade none = true) →
      (transmitRun client s L A).2.1 = A ∧
      (transmitRun client s L A).2.2 = false ∧
      noCalls (transmitRun client s L A).1 = true
  | [], A => fun _ => ⟨rfl, rfl, rfl⟩
  | ld :: rest, A => by
    intro hgood
    by_cases hc : ld.course_completed = false
    · have hEq : transmitStep client s A ld =
          ([Event.serialized ld (s ld),
            Event.skippedIncomplete ld.enterprise_course_enrollment_id],
           A, false) := by
        simp [transmitStep, hc]
      have hstep : (transmitStep client s A ld).2.2 = false := by rw [hEq]
      rw [transmitRun_cons client s ld rest A hstep, hEq]
      have IH := transmitRun_all_skipped client s rest A
        (fun r hr => hgood r (List.mem_cons_of_mem ld hr))
      refine ⟨IH.1, IH.2.1, ?_⟩
      have hx : ((transmitRun client s rest A).1.all fun e => !e.isCall) = true :=
        IH.2.2
      simp only [noCalls, List.all_append]
      rw [hx]
      rfl
    · have hc2 : ld.course_completed = true := by
        cases hcb : ld.course_completed
        · exact absurd hcb hc
        · rfl
      have hiat := hgood ld (List.mem_cons_self ld rest) hc2
      have hEq : transmitStep client s A ld =
          ([Event.serialized ld (s ld),
            Event.skippedTransmitted ld.enterprise_course_enrollment_id],
           A, false) := by
        simp [transmitStep, hc2, hiat]
      have hstep : (transmitStep client s A ld).2.2 = false := by rw [hEq]
      rw [transmitRun_cons client s ld rest A hstep, hEq]
      have IH := transmitRun_all_skipped client s rest A
        (fun r hr => hgood r (List.mem_cons_of_mem ld hr))
      refine ⟨IH.1, IH.2.1, ?_⟩
      have hx : ((transmitRun client s rest A).1.all fun e => !e.isCall) = true :=
        IH.2.2
      simp only [noCalls, List.all_append]
      rw [hx]
      rfl

/-- A client whose calls always succeed with HTTP 200. -/
def okClient : Client := fun _ _ => ClientOutcome.ok 200 ""

/-- A serializer producing a fixed payload. -/
def serP : Serializer := fun _ => "payload"

/-- A completed enrollment-1 record with grade 10. -/
def rA : LearnerData :=
  { enterprise_course_enrollment_id := 1, course_completed := true,
    grade := some 10, subsection_id := none, course_id := "course-1",
    remote_user_id := 11, status := "", error_message := "" }

/-- A second completed record for the same enrollment with grade 20 (the
exporters do yield several records per enrollment, e.g. one by course key
and one by course run id). -/
def rB : LearnerData :=
  { enterprise_course_enrollment_id := 1, course_completed := true,
    grade := some 20, subsection_id := none, course_id := "course-1",
    remote_user_id := 11, status := "", error_message := "" }

/-- C1 counterexample: two exported records for the same enrollment with
different grades both transmit and save on the first run, after which the
last audit row for the enrollment carries the second grade; the second run
over the same records, with unchanged grades, therefore calls the client
again for the first record. -/
theorem transmit_second_run_calls_again :
    noCalls (transmitRun okClient serP [rA, rB]
      (transmitRun okClient serP [rA, rB] []).2.1).1 = false := by decide

/-- C1 (amended: transmission is idempotent via the audit row for records
that are skipped, and a second run makes no client calls provided the first
run raised no uncaught exception and no two exported records share an
enrollment id with different grades): a record reported already transmitted
gets no client call and is not saved, and under the stated provisos a second
`transmit` run over the same records performs no client calls, whatever
client it is given. -/
theorem transmit_idempotent (client client2 : Client) (s : Serializer)
    (L A0 : List LearnerData)
    (hgr : ∀ a ∈ L, ∀ b ∈ L,
      a.enterprise_course_enrollment_id = b.enterprise_course_enrollment_id →
      a.grade = b.grade)
    (hok : (transmitRun client s L A0).2.2 = false) :
    (∀ (A : List LearnerData) (ld : LearnerData),
      is_already_transmitted A ld.enterprise_course_enrollment_id
        ld.grade none = true →
      ((transmitStep client s A ld).1.all
        (fun e => !e.isCall && !e.isSave)) = true ∧
      (transmitStep client s A ld).2.1 = A ∧
      (transmitStep client s A ld).2.2 = false) ∧
    noCalls (transmitRun client2 s L (transmitRun client s L A0).2.1).1 = true := by
  constructor
  · intro A ld hiat
    by_cases hc : ld.course_completed = false
    · have hEq : transmitStep client s A ld =
          ([Event.serialized ld (s ld),
            Event.skippedIncomplete ld.enterprise_course_enrollment_id],
           A, false) := by
        simp [transmitStep, hc]
      rw [hEq]
      exact ⟨rfl, rfl, rfl⟩
    · have hc2 : ld.course_completed = true := by
        cases hcb : ld.course_completed
        · exact absurd hcb hc
        · rfl
      have hEq : transmitStep client s A ld =
          ([Event.serialized ld (s ld),
            Event.skippedTransmitted ld.enterprise_course_enrollment_id],
           A, false) := by
        simp [transmitStep, hc2, hiat]
      rw [hEq]
      exact ⟨rfl, rfl, rfl⟩
  · refine (transmitRun_all_skipped client2 s L
      (transmitRun client s L A0).2.1 ?_).2.2
    intro r hr hrc
    exact transmitRun_establishes_audit client s L A0 hgr hok r hr hrc

/-- Witness for `transmit_idempotent`: one completed record, empty initial
audit table; the second run makes no client call. -/
theorem transmit_idempotent_witness :
    noCalls (transmitRun okClient serP [rA]
      (transmitRun okClient serP [rA] []).2.1).1 = true :=
  (transmit_idempotent okClient okClient serP [rA] [] (by decide) (by decide)).2

/-- A client whose calls always raise an exception that is not a
`ClientError`. -/
def exnClient : Client := fun _ _ => ClientOutcome.otherException

/-- A client whose calls always raise `ClientError` with status 500. -/
def errClient : Client := fun _ _ => ClientOutcome.clientError 500 "boom"

/-- A completed enrollment-2 record with grade 30. -/
def rC : LearnerData :=
  { enterprise_course_enrollment_id := 2, course_completed := true,
    grade := some 30, subsection_id := none, course_id := "course-2",
    remote_user_id := 22, status := "", error_message := "" }

/-- C2 counterexample: when the client call raises an exception that is not
a `ClientError`, the `except Exception` arm re-raises it; the run aborts and
the remaining record is never reached (it is not even serialized). -/
theorem transmit_aborts_on_generic_exception :
    (transmitRun exnClient serP [rA, rC] []).2.2 = true ∧
    Event.serialized rC (serP rC) ∉ (transmitRun exnClient serP [rA, rC] []).1 := by
  decide

/-- C2 (amended: only `ClientError` is caught-and-logged; any other
exception raised by the client call is re-raised and aborts the loop): for
every exporter output and every client call that returns normally or raises
`ClientError`, each of the three transmitter loops completes the iteration
without aborting and proceeds to the remaining records. -/
theorem transmit_continues_unless_uncaught
    (client : Client) (s : Serializer) (A : List LearnerData)
    (ld : LearnerData) (rest : List LearnerData)
    (h : client ld.remote_user_id (s ld) ≠ ClientOutcome.otherException) :
    ((transmitStep client s A ld).2.2 = false ∧
      transmitRun client s (ld :: rest) A =
        ((transmitStep client s A ld).1 ++
          (transmitRun client s rest (transmitStep client s A ld).2.1).1,
         (transmitRun client s rest (transmitStep client s A ld).2.1).2.1,
         (transmitRun client s rest (transmitStep client s A ld).2.1).2.2)) ∧
    ((assessmentStep client s A ld).2.2 = false ∧
      assessmentRun client s (ld :: rest) A =
        ((assessmentStep client s A ld).1 ++
          (assessmentRun client s rest (assessmentStep client s A ld).2.1).1,
         (assessmentRun client s rest (assessmentStep client s A ld).2.1).2.1,
         (assessmentRun client s rest (assessmentStep client s A ld).2.1).2.2)) ∧
    ((singleStep client s A ld).2.2 = false ∧
      singleRun client s (ld :: rest) A =
        ((singleStep client s A ld).1 ++
          (singleRun client s rest (singleStep client s A ld).2.1).1,
         (singleRun client s rest (singleStep client s A ld).2.1).2.1,
         (singleRun client s rest (singleStep client s A ld).2.1).2.2)) := by
  have hT : (transmitStep client s A ld).2.2 = false := by
    rcases transmitStep_chars client s A ld with
      ⟨hEq, _⟩ | ⟨hEq, _, _⟩ | ⟨st, em, hEq, _, _⟩ | ⟨hEq, hcl, _, _⟩
    · rw [hEq]
    · rw [hEq]
    · rw [hEq]
    · exact absurd hcl h
  have hA : (assessmentStep client s A ld).2.2 = false := by
    rcases assessmentStep_chars client s A ld with
      ⟨hEq, _⟩ | ⟨st, em, hEq, _⟩ | ⟨hEq, hcl, _⟩
    · rw [hEq]
    · rw [hEq]
    · exact absurd hcl h
  have hS : (singleStep client s A ld).2.2 = false := by
    rcases singleStep_chars client s A ld with ⟨st, em, hEq⟩ | ⟨hEq, hcl⟩
    · rw [hEq]
    · exact absurd hcl h
  exact ⟨⟨hT, transmitRun_cons client s ld rest A hT⟩,
    ⟨hA, assessmentRun_cons client s ld rest A hA⟩,
    ⟨hS, singleRun_cons client s ld rest A hS⟩⟩

/-- Witness for `transmit_continues_unless_uncaught` with a client that
raises `ClientError` on every call. -/
theorem transmit_continues_unless_uncaught_witness :
    (transmitStep errClient serP [] rA).2.2 = false ∧
    (assessmentStep errClient serP [] rA).2.2 = false ∧
    (singleStep errClient serP [] rA).2.2 = false :=
  ⟨(transmit_continues_unless_uncaught errClient serP [] rA [rC]
      (by decide)).1.1,
   (transmit_continues_unless_uncaught errClient serP [] rA [rC]
      (by decide)).2.1.1,
   (transmit_continues_unless_uncaught errClient serP [] rA [rC]
      (by decide)).2.2.1⟩

/-- C3 counterexample: a record the audit reports as already transmitted
(same enrollment, same grade) still triggers a client call in
`single_learner_assessment_grade_transmit`, which never consults
`is_already_transmitted`. -/
theorem single_learner_transmit_no_dedup :
    is_already_transmitted [rA] rA.enterprise_course_enrollment_id rA.grade
      rA.subsection_id = true ∧
    noCalls (singleRun okClient serP [rA] [rA]).1 = false := by
  decide

/-- C3 (amended: `transmit` and `assessment_level_transmit` deduplicate via
`is_already_transmitted` and skip the client call for already-sent records;
`single_learner_assessment_grade_transmit` calls the client for every
exported record without consulting the audit): a record reported already
transmitted produces no call in the first two loops, while the single-learner
loop always emits the call and its behaviour does not depend on the audit
table at all. -/
theorem dedup_only_in_bulk_paths (client : Client) (s : Serializer)
    (A A2 : List LearnerData) (ld : LearnerData) :
    (is_already_transmitted A ld.enterprise_course_enrollment_id
        ld.grade none = true →
      ((transmitStep client s A ld).1.all (fun e => !e.isCall)) = true ∧
      (transmitStep client s A ld).2.1 = A) ∧
    (is_already_transmitted A ld.enterprise_course_enrollment_id
        ld.grade ld.subsection_id = true →
      assessmentStep client s A ld =
        ([Event.serialized ld (s ld),
          Event.skippedTransmitted ld.enterprise_course_enrollment_id],
         A, false)) ∧
    (Event.assessmentCall ld.remote_user_id (s ld) ∈
        (singleStep client s A ld).1 ∧
      (singleStep client s A ld).1 = (singleStep client s A2 ld).1) := by
  refine ⟨?_, ?_, ?_, ?_⟩
  · intro hiat
    by_cases hc : ld.course_completed = false
    · have hEq : transmitStep client s A ld =
          ([Event.serialized ld (s ld),
            Event.skippedIncomplete ld.enterprise_course_enrollment_id],
           A, false) := by
        simp [transmitStep, hc]
      rw [hEq]
      exact ⟨rfl, rfl⟩
    · have hc2 : ld.course_completed = true := by
        cases hcb : ld.course_completed
        · exact absurd hcb hc
        · rfl
      have hEq : transmitStep client s A ld =
          ([Event.serialized ld (s ld),
            Event.skippedTransmitted ld.enterprise_course_enrollment_id],
           A, false) := by
        simp [transmitStep, hc2, hiat]
      rw [hEq]
      exact ⟨rfl, rfl⟩
  · intro hiat
    simp [assessmentStep, hiat]
  · rcases singleStep_chars client s A ld with ⟨st, em, hEq⟩ | ⟨hEq, _⟩ <;>
      rw [hEq] <;> simp
  · cases hcl : client ld.remote_user_id (s ld) <;> simp [singleStep, hcl]

/-- Witness for `dedup_only_in_bulk_paths` at a concrete already-transmitted
record. -/
theorem dedup_only_in_bulk_paths_witness :
    ((transmitStep okClient serP [rA] rA).1.all (fun e => !e.isCall)) = true ∧
    assessmentStep okClient serP [rA] rA =
      ([Event.serialized rA (serP rA),
        Event.skippedTransmitted rA.enterprise_course_enrollment_id],
       [rA], false) ∧
    Event.assessmentCall rA.remote_user_id (serP rA) ∈
      (singleStep okClient serP [rA] rA).1 :=
  ⟨((dedup_only_in_bulk_paths okClient serP [rA] [] rA).1 (by decide)).1,
   (dedup_only_in_bulk_paths okClient serP [rA] [] rA).2.1 (by decide),
   (dedup_only_in_bulk_paths okClient serP [rA] [] rA).2.2.1⟩

/-- The audit record as saved after an attempt: `learner_data.status =
str(code)`, `learner_data.error_message` as computed, then `save()`. -/
def savedWith (ld : LearnerData) (code : Nat) (em : String) : LearnerData :=
  { ld with status := toString code, error_message := em }

/-- A client whose calls return HTTP 500 with body "oops". -/
def badClient : Client := fun _ _ => ClientOutcome.ok 500 "oops"

/-- C5 counterexample: in `transmit`, a response with code 500 and body
"oops" is re-raised as a `ClientError` whose message prefixes the body, so
the audit row is saved with that wrapped message as `error_message`, not
with the response body. -/
theorem transmit_error_message_is_wrapped :
    (transmitStep badClient serP [] rA).2.1 =
      [savedWith rA 500 "Client create_course_completion failed: oops"] ∧
    ¬ ("Client create_course_completion failed: oops" = "oops") := by
  decide

/-- C5 (amended: after every non-skipped attempt ending in a response or a
`ClientError`, the record is saved with `status` the decimal string of the
code and `error_message` empty for codes below 400; for codes at least 400
the message is the response body in `assessment_level_transmit` and
`single_learner_assessment_grade_transmit`, the `ClientError` message when
the client raises one, but in `transmit` a response with code at least 400
is saved with the wrapped message prefixed by the string
"Client create_course_completion failed: "). -/
theorem saved_status_and_error_message (client : Client) (s : Serializer)
    (A : List LearnerData) (ld : LearnerData) :
    (∀ code body, client ld.remote_user_id (s ld) = ClientOutcome.ok code body →
      (singleStep client s A ld =
        ([Event.serialized ld (s ld),
          Event.assessmentCall ld.remote_user_id (s ld),
          Event.saved (savedWith ld code (if 400 ≤ code then body else ""))],
         A ++ [savedWith ld code (if 400 ≤ code then body else "")], false)) ∧
      (is_already_transmitted A ld.enterprise_course_enrollment_id
          ld.grade ld.subsection_id = false →
        assessmentStep client s A ld =
          ([Event.serialized ld (s ld),
            Event.assessmentCall ld.remote_user_id (s ld),
            Event.saved (savedWith ld code (if 400 ≤ code then body else ""))],
           A ++ [savedWith ld code (if 400 ≤ code then body else "")], false)) ∧
      (ld.course_completed = true →
        is_already_transmitted A ld.enterprise_course_enrollment_id
          ld.grade none = false →
        transmitStep client s A ld =
          ([Event.serialized ld (s ld),
            Event.completionCall ld.remote_user_id (s ld),
            Event.saved (savedWith ld code (if 400 ≤ code then
              "Client create_course_completion failed: " ++ body else ""))],
           A ++ [savedWith ld code (if 400 ≤ code then
              "Client create_course_completion failed: " ++ body else "")],
           false))) ∧
    (∀ code msg,
      client ld.remote_user_id (s ld) = ClientOutcome.clientError code msg →
      (singleStep client s A ld =
        ([Event.serialized ld (s ld),
          Event.assessmentCall ld.remote_user_id (s ld),
          Event.saved (savedWith ld code (if 400 ≤ code then msg else ""))],
         A ++ [savedWith ld code (if 400 ≤ code then msg else "")], false)) ∧
      (is_already_transmitted A ld.enterprise_course_enrollment_id
          ld.grade ld.subsection_id = false →
        assessmentStep client s A ld =
          ([Event.serialized ld (s ld),
            Event.assessmentCall ld.remote_user_id (s ld),
            Event.saved (savedWith ld code (if 400 ≤ code then msg else ""))],
           A ++ [savedWith ld code (if 400 ≤ code then msg else "")], false)) ∧
      (ld.course_completed = true →
        is_already_transmitted A ld.enterprise_course_enrollment_id
          ld.grade none = false →
        transmitStep client s A ld =
          ([Event.serialized ld (s ld),
            Event.completionCall ld.remote_user_id (s ld),
            Event.saved (savedWith ld code (if 400 ≤ code then msg else ""))],
           A ++ [savedWith ld code (if 400 ≤ code then msg else "")],
           false))) := by
  constructor
  · intro code body hcl
    refine ⟨?_, ?_, ?_⟩
    · simp [singleStep, hcl, savedWith]
    · intro hiat
      simp [assessmentStep, hiat, hcl, savedWith]
    · intro hc2 hiat
      by_cases h4 : 400 ≤ code
      · simp [transmitStep, hc2, hiat, hcl, h4, savedWith]
      · simp [transmitStep, hc2, hiat, hcl, h4, savedWith]
  · intro code msg hcl
    refine ⟨?_, ?_, ?_⟩
    · simp [singleStep, hcl, savedWith]
    · intro hiat
      simp [assessmentStep, hiat, hcl, savedWith]
    · intro hc2 hiat
      simp [transmitStep, hc2, hiat, hcl, savedWith]

/-- Witness for `saved_status_and_error_message` at a concrete 500 response:
the single-learner loop saves the raw body, `transmit` saves the wrapped
message. -/
theorem saved_status_and_error_message_witness :
    (singleStep badClient serP [] rA =
      ([Event.serialized rA (serP rA),
        Event.assessmentCall rA.remote_user_id (serP rA),
        Event.saved (savedWith rA 500 (if 400 ≤ 500 then "oops" else ""))],
       [] ++ [savedWith rA 500 (if 400 ≤ 500 then "oops" else "")], false)) ∧
    (transmitStep badClient serP [] rA =
      ([Event.serialized rA (serP rA),
        Event.completionCall rA.remote_user_id (serP rA),
        Event.saved (savedWith rA 500 (if 400 ≤ 500 then
          "Client create_course_completion failed: " ++ "oops" else ""))],
       [] ++ [savedWith rA 500 (if 400 ≤ 500 then
          "Client create_course_completion failed: " ++ "oops" else "")],
       false)) :=
  ⟨((saved_status_and_error_message badClient serP [] rA).1 500 "oops" rfl).1,
   ((saved_status_and_error_message badClient serP [] rA).1 500 "oops" rfl).2.2
     (by decide) (by decide)⟩

/-- The per-record event blocks of a `transmit` run, in exporter order
(cut short after an aborting iteration). -/
def runTraces (client : Client) (s : Serializer) :
    List LearnerData → List LearnerData → List (List Event)
  | [], _ => []
  | ld :: rest, A =>
    let step := transmitStep client s A ld
    if step.2.2 then [step.1]
    else step.1 :: runTraces client s rest step.2.1

/-- The events of a `transmit` run are the concatenation of its per-record
blocks. -/
theorem transmitRun_eq_join (client : Client) (s : Serializer) :
    ∀ (L A : List LearnerData),
      (transmitRun client s L A).1 = (runTraces client s L A).flatten
  | [], A => by simp [transmitRun, runTraces]
  | ld :: rest, A => by
    by_cases h : (transmitStep client s A ld).2.2 = true
    · rw [transmitRun_cons_abort client s ld rest A h]
      simp [runTraces, h]
    · have hf : (transmitStep client s A ld).2.2 = false := by
        cases hb : (transmitStep client s A ld).2.2
        · rfl
        · exact absurd hb h
      rw [transmitRun_cons client s ld rest A hf]
      simp [runTraces, hf,
        transmitRun_eq_join client s rest (transmitStep client s A ld).2.1]

/-- A run has at most one block per record, and exactly one per record when
it does not abort. -/
theorem runTraces_length (client : Client) (s : Serializer) :
    ∀ (L A : List LearnerData),
      (runTraces client s L A).length ≤ L.length ∧
      ((transmitRun client s L A).2.2 = false →
        (runTraces client s L A).length = L.length)
  | [], A => by simp [transmitRun, runTraces]
  | ld :: rest, A => by
    by_cases h : (transmitStep client s A ld).2.2 = true
    · constructor
      · simp [runTraces, h]
      · intro hab
        rw [transmitRun_cons_abort client s ld rest A h] at hab
        cases hab
    · have hf : (transmitStep client s A ld).2.2 = false := by
        cases hb : (transmitStep client s A ld).2.2
        · rfl
        · exact absurd hb h
      have IH := runTraces_length client s rest (transmitStep client s A ld).2.1
      constructor
      · simp only [runTraces, hf]
        simp [Nat.succ_le_succ IH.1]
      · intro hab
        rw [transmitRun_cons client s ld rest A hf] at hab
        simp only [runTraces, hf]
        simp [IH.2 hab]

/-- Each block of a run is the step trace of the record at the same
position, evaluated at some intermediate audit table. -/
theorem runTraces_get (client : Client) (s : Serializer) :
    ∀ (L A : List LearnerData) (i : Nat)
      (hi : i < (runTraces client s L A).length),
      ∃ (hL : i < L.length) (A2 : List LearnerData),
        (runTraces client s L A).get ⟨i, hi⟩ =
          (transmitStep client s A2 (L.get ⟨i, hL⟩)).1
  | [], A, i, hi => absurd hi (by simp [runTraces])
  | ld :: rest, A, i, hi => by
    by_cases h : (transmitStep client s A ld).2.2 = true
    · have hi0 : i = 0 := by
        have hx := hi
        simp [runTraces, h] at hx
        omega
      subst hi0
      exact ⟨Nat.succ_pos _, A, by simp [runTraces, h]⟩
    · have hf : (transmitStep client s A ld).2.2 = false := by
        cases hb : (transmitStep client s A ld).2.2
        · rfl
        · exact absurd hb h
      cases i with
      | zero => exact ⟨Nat.succ_pos _, A, by simp [runTraces, hf]⟩
      | succ i =>
        have hi2 : i < (runTraces client s rest
            (transmitStep client s A ld).2.1).length := by
          have hx := hi
          simp [runTraces, hf] at hx
          omega
        rcases runTraces_get client s rest (transmitStep client s A ld).2.1
          i hi2 with ⟨hL, A2, hEq⟩
        refine ⟨Nat.succ_lt_succ hL, A2, ?_⟩
        simpa [runTraces, hf] using hEq

/-- The four possible shapes of a step trace: serialization always comes
first, the POST (when made) second, the save (when reached) last. -/
theorem transmitStep_trace_shape (client : Client) (s : Serializer)
    (A2 : List LearnerData) (ld : LearnerData) :
    (transmitStep client s A2 ld).1 =
        [Event.serialized ld (s ld),
         Event.skippedIncomplete ld.enterprise_course_enrollment_id] ∨
    (transmitStep client s A2 ld).1 =
        [Event.serialized ld (s ld),
         Event.skippedTransmitted ld.enterprise_course_enrollment_id] ∨
    (∃ w, (transmitStep client s A2 ld).1 =
        [Event.serialized ld (s ld),
         Event.completionCall ld.remote_user_id (s ld),
         Event.saved w]) ∨
    (transmitStep client s A2 ld).1 =
        [Event.serialized ld (s ld),
         Event.completionCall ld.remote_user_id (s ld)] := by
  rcases transmitStep_chars client s A2 ld with
    ⟨hEq, _⟩ | ⟨hEq, _, _⟩ | ⟨st, em, hEq, _, _⟩ | ⟨hEq, _, _, _⟩
  · exact Or.inl (by rw [hEq])
  · exact Or.inr (Or.inl (by rw [hEq]))
  · exact Or.inr (Or.inr (Or.inl ⟨_, by rw [hEq]⟩))
  · exact Or.inr (Or.inr (Or.inr (by rw [hEq])))

/-- C6: `transmit` is a direct sequential pass-through in a fixed order: its
event stream is the in-order concatenation of one block per exported record
(all records when no exception escapes, a prefix otherwise), and each block
serializes its record first, then issues the POST, then saves the result,
with no interleaving between records. -/
theorem transmit_sequential_pass_through (client : Client) (s : Serializer)
    (L A : List LearnerData) :
    (transmitRun client s L A).1 = (runTraces client s L A).flatten ∧
    (runTraces client s L A).length ≤ L.length ∧
    ((transmitRun client s L A).2.2 = false →
      (runTraces client s L A).length = L.length) ∧
    (∀ i (hi : i < (runTraces client s L A).length),
      ∃ (hL : i < L.length) (A2 : List LearnerData),
        (runTraces client s L A).get ⟨i, hi⟩ =
          (transmitStep client s A2 (L.get ⟨i, hL⟩)).1 ∧
        ((runTraces client s L A).get ⟨i, hi⟩ =
            [Event.serialized (L.get ⟨i, hL⟩) (s (L.get ⟨i, hL⟩)),
             Event.skippedIncomplete
               (L.get ⟨i, hL⟩).enterprise_course_enrollment_id] ∨
         (runTraces client s L A).get ⟨i, hi⟩ =
            [Event.serialized (L.get ⟨i, hL⟩) (s (L.get ⟨i, hL⟩)),
             Event.skippedTransmitted
               (L.get ⟨i, hL⟩).enterprise_course_enrollment_id] ∨
         (∃ w, (runTraces client s L A).get ⟨i, hi⟩ =
            [Event.serialized (L.get ⟨i, hL⟩) (s (L.get ⟨i, hL⟩)),
             Event.completionCall (L.get ⟨i, hL⟩).remote_user_id
               (s (L.get ⟨i, hL⟩)),
             Event.saved w]) ∨
         (runTraces client s L A).get ⟨i, hi⟩ =
            [Event.serialized (L.get ⟨i, hL⟩) (s (L.get ⟨i, hL⟩)),
             Event.completionCall (L.get ⟨i, hL⟩).remote_user_id
               (s (L.get ⟨i, hL⟩))])) := by
  refine ⟨transmitRun_eq_join client s L A,
    (runTraces_length client s L A).1,
    (runTraces_length client s L A).2, ?_⟩
  intro i hi
  rcases runTraces_get client s L A i hi with ⟨hL, A2, hEq⟩
  refine ⟨hL, A2, hEq, ?_⟩
  rw [hEq]
  exact transmitStep_trace_shape client s A2 (L.get ⟨i, hL⟩)

/-- Witness for `transmit_sequential_pass_through`: a concrete two-record
run, with the no-abort hypothesis of the block-count clause discharged. -/
theorem transmit_sequential_pass_through_witness :
    (transmitRun okClient serP [rA, rC] []).1 =
      (runTraces okClient serP [rA, rC] []).flatten ∧
    (runTraces okClient serP [rA, rC] []).length = [rA, rC].length :=
  ⟨(transmit_sequential_pass_through okClient serP [rA, rC] []).1,
   (transmit_sequential_pass_through okClient serP [rA, rC] []).2.2.1
     (by decide)⟩

/-- An in-progress (not completed) enrollment record. -/
def rD : LearnerData :=
  { enterprise_course_enrollment_id := 3, course_completed := false,
    grade := some 5, subsection_id := none, course_id := "course-3",
    remote_user_id := 33, status := "init", error_message := "init" }

/-- C10: `transmit` sends completion calls only for completed courses: a
record with `course_completed` false produces no client call, no save (so
its `status` and `error_message` fields are left untouched and the audit
table is unchanged), and processing moves on to the next record. -/
theorem transmit_skips_incomplete (client : Client) (s : Serializer)
    (A : List LearnerData) (ld : LearnerData) (rest : List LearnerData)
    (h : ld.course_completed = false) :
    transmitStep client s A ld =
      ([Event.serialized ld (s ld),
        Event.skippedIncomplete ld.enterprise_course_enrollment_id],
       A, false) ∧
    noCalls (transmitStep client s A ld).1 = true ∧
    ((transmitStep client s A ld).1.all (fun e => !e.isSave)) = true ∧
    transmitRun client s (ld :: rest) A =
      ([Event.serialized ld (s ld),
        Event.skippedIncomplete ld.enterprise_course_enrollment_id] ++
        (transmitRun client s rest A).1,
       (transmitRun client s rest A).2.1,
       (transmitRun client s rest A).2.2) := by
  have hEq : transmitStep client s A ld =
      ([Event.serialized ld (s ld),
        Event.skippedIncomplete ld.enterprise_course_enrollment_id],
       A, false) := by
    simp [transmitStep, h]
  have hstep : (transmitStep client s A ld).2.2 = false := by rw [hEq]
  refine ⟨hEq, by rw [hEq]; rfl, by rw [hEq]; rfl, ?_⟩
  rw [transmitRun_cons client s ld rest A hstep, hEq]

/-- Witness for `transmit_skips_incomplete` at a concrete in-progress
record. -/
theorem transmit_skips_incomplete_witness :
    transmitStep okClient serP [] rD =
      ([Event.serialized rD (serP rD),
        Event.skippedIncomplete rD.enterprise_course_enrollment_id],
       [], false) ∧
    noCalls (transmitStep okClient serP [] rD).1 = true :=
  ⟨(transmit_skips_incomplete okClient serP [] rD [rC] (by decide)).1,
   (transmit_skips_incomplete okClient serP [] rD [rC] (by decide)).2.1⟩
